import Mathlib

/-!
Verification development for the env-type-generator repository.

The repository converts dotenv-style text files into TypeScript declaration
text and optional runtime-validation schemas.  This file gives a shallow
embedding of the parts of the program needed to settle the frozen claims:

* the data model (src/src/types/index.ts) and the error classes
  (src/src/utils/errors.ts);
* `GeneratorService.mergeVariables` and `GeneratorService.generate`
  (src/src/services, embedded from the source);
* the `FileWatcher` debounce state machine (src/src/index.ts, embedded as a
  discrete-event semantics over a trace of events, with JavaScript timer
  semantics made explicit);
* the `EnvParser`, `TypeGenerator` and `ValidationGenerator`, whose
  implementations are not under src/ (only their tests are); those are
  modelled from the spec, as marked on each definition.

File I/O is modelled by an abstract filesystem `Filesystem : String → Option
String`, and writing files by a list of `(path, content)` pairs returned by
`generate`.
-/

namespace EnvTypeGen

/-- Variable record, from `EnvVariable` in src/src/types/index.ts. -/
structure EnvVariable where
  key : String
  value : String
  comment : Option String := none
deriving DecidableEq, Repr

/-- Parsed file record, from `ParsedEnvFile` in src/src/types/index.ts.
The TS field is called `variables`, a reserved word in Lean, hence `vars`. -/
structure ParsedEnvFile where
  vars : List EnvVariable
  filePath : String
deriving DecidableEq, Repr

/-- The validation dialects, from `ValidationLibrary` in src/src/types/index.ts.
`vnone` stands for the string literal "none". -/
inductive ValidationLibrary
  | zod
  | yup
  | joi
  | vnone
deriving DecidableEq, Repr

/-- Caller configuration, from `GeneratorConfig` in src/src/types/index.ts.
Optional TS fields become `Option`; `none` models an omitted (undefined)
field. -/
structure GeneratorConfig where
  envFiles : List String
  outputPath : String
  validationLib : Option ValidationLibrary := none
  validationOutput : Option String := none
  requiredVars : Option (List String) := none
  parseTypes : Option Bool := none
  strict : Option Bool := none
  watch : Option Bool := none
deriving DecidableEq, Repr

/-- Generator options, from `GeneratorOptions` in src/src/types/index.ts. -/
structure GeneratorOptions where
  parseTypes : Bool
  validationLib : ValidationLibrary
  requiredVars : List String
  strict : Bool
deriving DecidableEq, Repr

/-- Error classes from src/src/utils/errors.ts, one constructor per class,
carrying the constructor arguments. -/
inductive Err
  | envTypeGeneratorError (message : String)
  | fileNotFoundError (filePath : String)
  | parseError (filePath : String) (reason : String)
  | validationError (message : String)
  | generationError (message : String)
deriving DecidableEq, Repr

/-- The `message` property of each error, as built by the constructors in
src/src/utils/errors.ts. -/
def Err.message : Err → String
  | .envTypeGeneratorError m => m
  | .fileNotFoundError p => "Environment file not found: " ++ p
  | .parseError p r => "Failed to parse " ++ p ++ ": " ++ r
  | .validationError m => "Validation failed: " ++ m
  | .generationError m => "Type generation failed: " ++ m

/-! ## Merge step

`GeneratorService.mergeVariables` (src/src/services, embedded inside
file-watcher.test.ts) inserts every variable of every file, in order, into a
JavaScript `Map` keyed by variable name and returns the values in the map's
iteration order.  A JavaScript `Map.set` replaces an existing key in place
(keeping its insertion position) and appends a new key at the end;
`mapSet` embeds exactly that. -/

/-- JavaScript `Map.set` semantics on an insertion-ordered association list
of variable records keyed by `key`. -/
def mapSet : List EnvVariable → EnvVariable → List EnvVariable
  | [], v => [v]
  | w :: ws, v => if w.key = v.key then v :: ws else w :: mapSet ws v

/-- `GeneratorService.mergeVariables`: for each file in order, for each
variable, insert/overwrite by key. -/
def mergeVariables (variableArrays : List (List EnvVariable)) : List EnvVariable :=
  variableArrays.foldl (fun merged vs => vs.foldl mapSet merged) []

/-- The key order described by the spec for the merged set: the order in
which each key first appeared across the file list.  Used to compare
`mergeVariables` against the spec's words. -/
def firstAppearanceOrder (keys : List String) : List String :=
  keys.foldl (fun acc k => if k ∈ acc then acc else acc ++ [k]) []

/-! ## EnvParser

The EnvParser implementation is not under src/ (only its unit tests are), so
the parser is modelled from the spec, sections 4.1 to 4.4.  The filesystem is
abstract: a map from path to file content, `none` meaning the path does not
resolve to an existing file. -/

/-- Abstract filesystem: path to file content, `none` when the file is missing. -/
def Filesystem : Type := String → Option String

/-- The single-quote character, written by code point to keep source plain. -/
def squote : Char := Char.ofNat 39

/-- Whitespace recognised by trimming (the common ASCII whitespace of the
dotenv inputs; the JS `trim` also strips rarer Unicode spaces, which do not
occur in this model's inputs). -/
def isWsChar (c : Char) : Bool :=
  c = ' ' || c = '\t' || c = '\n' || c = '\r'

/-- Trim leading and trailing whitespace of a character list.  Structural
stand-in for `String.trim`, so that concrete runs reduce in the kernel. -/
def trimChars (cs : List Char) : List Char :=
  ((cs.dropWhile isWsChar).reverse.dropWhile isWsChar).reverse

/-- Trim a string; stand-in for the JS `trim`. -/
def strTrim (s : String) : String := String.mk (trimChars s.data)

/-- Split a character list at newline characters; stand-in for the JS
`split` on a newline. -/
def splitNewlines : List Char → List (List Char)
  | [] => [[]]
  | c :: rest =>
    if c = '\n' then [] :: splitNewlines rest
    else
      match splitNewlines rest with
      | l :: ls => (c :: l) :: ls
      | [] => [[c]]

/-- Modelled from the spec: escape resolution inside a double-quoted value
(spec 4.2 rule 1): backslash-n, -t, -r, backslash-backslash and
backslash-quote are resolved, any other backslash sequence is left as-is. -/
def resolveEscapes : List Char → List Char
  | [] => []
  | '\\' :: c :: rest =>
    if c = 'n' then '\n' :: resolveEscapes rest
    else if c = 't' then '\t' :: resolveEscapes rest
    else if c = 'r' then '\r' :: resolveEscapes rest
    else if c = '\\' then '\\' :: resolveEscapes rest
    else if c = '"' then '"' :: resolveEscapes rest
    else '\\' :: c :: resolveEscapes rest
  | c :: rest => c :: resolveEscapes rest

/-- Split a character list at the first unescaped double quote, returning the
part before it and the part after it; `none` when no unescaped quote exists. -/
def splitAtUnescapedQuote : List Char → Option (List Char × List Char)
  | [] => none
  | '\\' :: c :: rest =>
    match splitAtUnescapedQuote rest with
    | some (a, b) => some ('\\' :: c :: a, b)
    | none => none
  | c :: rest =>
    if c = '"' then some ([], rest)
    else
      match splitAtUnescapedQuote rest with
      | some (a, b) => some (c :: a, b)
      | none => none

/-- Split a character list at the first occurrence of `target`. -/
def splitAtChar (target : Char) : List Char → Option (List Char × List Char)
  | [] => none
  | c :: rest =>
    if c = target then some ([], rest)
    else
      match splitAtChar target rest with
      | some (a, b) => some (c :: a, b)
      | none => none

/-- Keep everything before the first unescaped hash character (spec 4.2
rule 3: an unquoted value ends at the first unescaped inline-comment mark). -/
def takeUntilUnescapedHash : List Char → List Char
  | [] => []
  | '\\' :: c :: rest => '\\' :: c :: takeUntilUnescapedHash rest
  | c :: rest => if c = '#' then [] else c :: takeUntilUnescapedHash rest

/-- Modelled from the spec: the unquoted-value rule of the decoder
(spec 4.2 rule 3), also used as the unbalanced-quote fallback on the original
raw text. -/
def unquotedValue (raw : String) : String :=
  String.mk (trimChars (takeUntilUnescapedHash raw.data))

/-- Modelled from the spec: `EnvParser` value decoding (spec 4.2): a
double-quoted value with a matching unescaped close is unquoted with escapes
resolved, a single-quoted value is unquoted literally, anything after a
closing quote is discarded, and otherwise (including an unbalanced quote) the
unquoted rule applies to the original raw text. -/
def decodeValue (raw : String) : String :=
  match trimChars raw.data with
  | '"' :: rest =>
    match splitAtUnescapedQuote rest with
    | some (inner, _) => String.mk (resolveEscapes inner)
    | none => unquotedValue raw
  | c :: rest =>
    if c = squote then
      match splitAtChar squote rest with
      | some (inner, _) => String.mk inner
      | none => unquotedValue raw
    else unquotedValue raw
  | [] => unquotedValue raw

/-- The variable-key grammar of spec 3: a letter or underscore followed by
letters, digits or underscores. -/
def isValidKey (s : String) : Bool :=
  match s.data with
  | [] => false
  | c :: rest => (c.isAlpha || c = '_') && rest.all (fun d => d.isAlphanum || d = '_')

/-- Accumulator for the line fold: the pending leading comment and the
variables collected so far (spec 9, pending-comment design note). -/
structure LineAcc where
  pending : Option String
  vars : List EnvVariable
deriving DecidableEq, Repr

/-- Comment-line text: the leading hash and one following space, when
present, are stripped (spec 4.1). -/
def commentText (afterHash : List Char) : String :=
  match afterHash with
  | ' ' :: rest => String.mk rest
  | rest => String.mk rest

/-- Modelled from the spec: the line parser (spec 4.1).  A hash line sets the
pending comment; any other line consumes (clears) the pending comment, and
contributes a variable exactly when it splits at an equals sign with a valid
identifier key. -/
def processLine (acc : LineAcc) (line : String) : LineAcc :=
  match trimChars line.data with
  | '#' :: afterHash => { acc with pending := some (commentText afterHash) }
  | t =>
    match splitAtChar '=' t with
    | some (lhs, rhs) =>
      let key := String.mk (trimChars lhs)
      if isValidKey key then
        { pending := none
          vars := acc.vars ++
            [{ key := key, value := decodeValue (String.mk rhs), comment := acc.pending }] }
      else { pending := none, vars := acc.vars }
    | none => { pending := none, vars := acc.vars }

/-- Modelled from the spec: parsing a file's lines as a fold with the
pending-comment accumulator (spec 4.4, 9). -/
def parseLines (lines : List String) : List EnvVariable :=
  (lines.foldl processLine { pending := none, vars := [] }).vars

/-- Modelled from the spec: `EnvParser.parseFile` (spec 4.4, 6): fails with
`FileNotFound` when the path does not resolve to an existing file, otherwise
parses the content line by line. -/
def parseFile (fs : Filesystem) (path : String) : Except Err ParsedEnvFile :=
  match fs path with
  | none => .error (.fileNotFoundError path)
  | some content =>
    .ok { filePath := path
          vars := parseLines ((splitNewlines content.data).map String.mk) }

/-- Modelled from the spec: `EnvParser.parseFiles` (spec 4.4): each file is
parsed independently in order and the first failure propagates. -/
def parseFiles (fs : Filesystem) : List String → Except Err (List ParsedEnvFile)
  | [] => .ok []
  | p :: ps => do
    let f ← parseFile fs p
    let rest ← parseFiles fs ps
    pure (f :: rest)

/-! ## Type inferencer

`EnvParser.inferType` is also modelled from the spec (section 4.3).  The
structured-data check is a full JSON syntax validator written with explicit
fuel; the fuel bound is generous for the input length, and concrete
evaluations below exercise it. -/

/-- The four inferred type tags (spec 2, Type Inferencer). -/
inductive TypeTag
  | string
  | number
  | boolean
  | object
deriving DecidableEq, Repr

/-- Case-insensitive match of a character list against a reference word given
in lowercase ASCII letters; stand-in for comparing against the JS
`toLowerCase` of the input. -/
def matchesIgnoreCase : List Char → List Char → Bool
  | [], [] => true
  | a :: as, b :: bs => (a = b || a.toNat + 32 = b.toNat) && matchesIgnoreCase as bs
  | _, _ => false

/-- Modelled from the spec: case-insensitive boolean literals (spec 4.3). -/
def isBooleanString (s : String) : Bool :=
  matchesIgnoreCase s.data ['t', 'r', 'u', 'e'] ||
    matchesIgnoreCase s.data ['f', 'a', 'l', 's', 'e']

/-- Modelled from the spec: decimal numeric literal syntax (spec 4.3):
optional leading minus, digits, optional single dot with fractional digits;
no exponent, no leading plus. -/
def isNumberString (s : String) : Bool :=
  let cs := match s.data with
    | '-' :: rest => rest
    | cs => cs
  let (intPart, r1) := cs.span Char.isDigit
  if intPart.isEmpty then false
  else
    match r1 with
    | [] => true
    | '.' :: r2 =>
      let (frac, r3) := r2.span Char.isDigit
      !frac.isEmpty && r3.isEmpty
    | _ => false

/-- JSON insignificant whitespace. -/
def jsonWs (cs : List Char) : List Char :=
  cs.dropWhile (fun c => c = ' ' || c = '\t' || c = '\n' || c = '\r')

/-- Hexadecimal digit, for JSON unicode escapes. -/
def jsonHexDigit (c : Char) : Bool :=
  c.isDigit || (c ≥ 'a' && c ≤ 'f') || (c ≥ 'A' && c ≤ 'F')

/-- Consume an optional JSON exponent part; input that starts with no
exponent mark is returned unchanged. -/
def jsonNumExpPart (cs : List Char) : Option (List Char) :=
  match cs with
  | c :: r =>
    if c = 'e' || c = 'E' then
      let r2 := match r with
        | '+' :: rr => rr
        | '-' :: rr => rr
        | _ => r
      match r2.span Char.isDigit with
      | ([], _) => none
      | (_, r3) => some r3
    else some cs
  | [] => some []

/-- Consume an optional JSON fraction part followed by an optional exponent. -/
def jsonNumFracPart (cs : List Char) : Option (List Char) :=
  match cs with
  | '.' :: r =>
    match r.span Char.isDigit with
    | ([], _) => none
    | (_, r2) => jsonNumExpPart r2
  | _ => jsonNumExpPart cs

/-- Consume a JSON number literal. -/
def jsonNumberPart (cs : List Char) : Option (List Char) :=
  let cs1 := match cs with
    | '-' :: r => r
    | _ => cs
  match cs1 with
  | c :: r =>
    if c = '0' then jsonNumFracPart r
    else if c.isDigit then jsonNumFracPart (r.dropWhile Char.isDigit)
    else none
  | [] => none

/-- The four mutually recursive jobs of the JSON validator, folded into one
fueled function. -/
inductive JsonTask
  | value
  | stringBody
  | members
  | items
deriving DecidableEq, Repr

/-- Fueled JSON syntax validator: consumes one construct of the given task
from the input and returns the remaining input, or `none` on a syntax error
or fuel exhaustion.  Every recursive call spends one unit of fuel, so the
recursion is structural on the fuel. -/
def jsonRun : Nat → JsonTask → List Char → Option (List Char)
  | 0, _, _ => none
  | fuel + 1, .stringBody, cs =>
    match cs with
    | [] => none
    | '"' :: rest => some rest
    | '\\' :: c :: rest =>
      if c = '"' || c = '\\' || c = '/' || c = 'b' || c = 'f' ||
          c = 'n' || c = 'r' || c = 't' then
        jsonRun fuel .stringBody rest
      else if c = 'u' then
        match rest with
        | a :: b :: c2 :: d :: rest2 =>
          if jsonHexDigit a && jsonHexDigit b && jsonHexDigit c2 && jsonHexDigit d then
            jsonRun fuel .stringBody rest2
          else none
        | _ => none
      else none
    | c :: rest => if c.toNat < 32 then none else jsonRun fuel .stringBody rest
  | fuel + 1, .value, cs =>
    match jsonWs cs with
    | [] => none
    | '\x7b' :: rest =>
      match jsonWs rest with
      | '\x7d' :: rest2 => some rest2
      | rest2 => jsonRun fuel .members rest2
    | '[' :: rest =>
      match jsonWs rest with
      | ']' :: rest2 => some rest2
      | rest2 => jsonRun fuel .items rest2
    | '"' :: rest => jsonRun fuel .stringBody rest
    | 't' :: 'r' :: 'u' :: 'e' :: rest => some rest
    | 'f' :: 'a' :: 'l' :: 's' :: 'e' :: rest => some rest
    | 'n' :: 'u' :: 'l' :: 'l' :: rest => some rest
    | cs2 => jsonNumberPart cs2
  | fuel + 1, .members, cs =>
    match jsonWs cs with
    | '"' :: rest =>
      match jsonRun fuel .stringBody rest with
      | none => none
      | some rest2 =>
        match jsonWs rest2 with
        | ':' :: rest3 =>
          match jsonRun fuel .value rest3 with
          | none => none
          | some rest4 =>
            match jsonWs rest4 with
            | ',' :: rest5 => jsonRun fuel .members rest5
            | '\x7d' :: rest5 => some rest5
            | _ => none
        | _ => none
    | _ => none
  | fuel + 1, .items, cs =>
    match jsonRun fuel .value cs with
    | none => none
    | some rest =>
      match jsonWs rest with
      | ',' :: rest2 => jsonRun fuel .items rest2
      | ']' :: rest2 => some rest2
      | _ => none

/-- A whole string is one valid JSON value with nothing but whitespace after
it. -/
def jsonParsesFully (s : String) : Bool :=
  match jsonRun (4 * (s.length + 4)) .value s.data with
  | some rest => (jsonWs rest).isEmpty
  | none => false

/-- Modelled from the spec: a value is structured data only when it parses as
a syntactically valid JSON text whose top level is an array or a key/value
structure; any parse failure falls back to string (spec 4.3). -/
def isJsonStructure (s : String) : Bool :=
  match jsonWs s.data with
  | '\x7b' :: _ => jsonParsesFully s
  | '[' :: _ => jsonParsesFully s
  | _ => false

/-- Modelled from the spec: `EnvParser.inferType` (spec 4.3): boolean, then
number, then object, then string; first match wins. -/
def inferType (value : String) : TypeTag :=
  if isBooleanString value then .boolean
  else if isNumberString value then .number
  else if isJsonStructure value then .object
  else .string

/-! ## Type generator and validation generator

The TypeGenerator and ValidationGenerator implementations are not under src/
(only their unit tests are); these definitions are modelled from the spec
(sections 4.6 and 4.7) and from the output fragments fixed by the unit
tests. -/

/-- Join lines with newlines; structural stand-in for a string join. -/
def joinLines : List String → String
  | [] => ""
  | [l] => l
  | l :: ls => l ++ "\n" ++ joinLines ls

/-- Modelled from the spec: the per-variable required/optional rule of 4.6:
required when strict or when the key is in the required list. -/
def isRequired (opts : GeneratorOptions) (key : String) : Bool :=
  opts.strict || opts.requiredVars.contains key

/-- Modelled from the spec: the per-variable type text of 4.6: always string
when types are not parsed, otherwise the inferred tag's TS spelling. -/
def tsTypeOf (v : EnvVariable) (opts : GeneratorOptions) : String :=
  if opts.parseTypes then
    match inferType v.value with
    | .string => "string"
    | .number => "number"
    | .boolean => "boolean"
    | .object => "object"
  else "string"

/-- The documentation line emitted before a declaration when the record
carries a comment (spec 4.6). -/
def commentLines (indent : String) (v : EnvVariable) : List String :=
  match v.comment with
  | some c => [indent ++ "/** " ++ c ++ " */"]
  | none => []

/-- One ProcessEnv interface member: bare type when required, optional
marker with an explicit undefined union otherwise. -/
def envDeclLine (v : EnvVariable) (opts : GeneratorOptions) : String :=
  if isRequired opts v.key then
    "    " ++ v.key ++ ": " ++ tsTypeOf v opts ++ ";"
  else
    "    " ++ v.key ++ "?: " ++ tsTypeOf v opts ++ " | undefined;"

/-- One member of the exported env declaration block. -/
def envConstLine (v : EnvVariable) (opts : GeneratorOptions) : String :=
  if isRequired opts v.key then
    "  " ++ v.key ++ ": " ++ tsTypeOf v opts ++ ";"
  else
    "  " ++ v.key ++ "?: " ++ tsTypeOf v opts ++ ";"

/-- Modelled from the spec: `TypeGenerator.generateTypes` (spec 4.6), with
the output shape fixed by the unit tests: a NodeJS ProcessEnv declaration
block followed by an exported env declaration. -/
def generateTypes (vs : List EnvVariable) (opts : GeneratorOptions) : String :=
  joinLines
    (["declare namespace NodeJS \x7b", "  interface ProcessEnv \x7b"]
      ++ (vs.map (fun v => commentLines "    " v ++ [envDeclLine v opts])).flatten
      ++ ["  \x7d", "\x7d", "", "export declare const env: \x7b"]
      ++ vs.map (fun v => envConstLine v opts)
      ++ ["\x7d;"])

/-- The claim's reference output for strict mode, following the spec's
words: every declared variable gets the bare (required) annotation, with no
optional-marker token, regardless of the required list. -/
def generateTypesAllRequired (vs : List EnvVariable) (opts : GeneratorOptions) : String :=
  joinLines
    (["declare namespace NodeJS \x7b", "  interface ProcessEnv \x7b"]
      ++ (vs.map (fun v =>
            commentLines "    " v ++ ["    " ++ v.key ++ ": " ++ tsTypeOf v opts ++ ";"])).flatten
      ++ ["  \x7d", "\x7d", "", "export declare const env: \x7b"]
      ++ vs.map (fun v => "  " ++ v.key ++ ": " ++ tsTypeOf v opts ++ ";")
      ++ ["\x7d;"])

/-- Modelled from the spec: the zod primitive-and-transform cell for a type
tag (spec 4.7 semantic table; exact spellings fixed by the unit tests). -/
def zodPrimitive : TypeTag → String
  | .boolean => "z.enum([\"true\", \"false\"]).transform((val) => val === \"true\")"
  | .number => "z.string().transform((val) => Number(val))"
  | .object => "z.string().transform((val) => JSON.parse(val))"
  | .string => "z.string()"

/-- The yup primitive for a type tag. -/
def yupPrimitive : TypeTag → String
  | .boolean => "yup.boolean()"
  | .number => "yup.number()"
  | .object => "yup.object()"
  | .string => "yup.string()"

/-- The joi primitive for a type tag. -/
def joiPrimitive : TypeTag → String
  | .boolean => "Joi.boolean()"
  | .number => "Joi.number()"
  | .object => "Joi.object()"
  | .string => "Joi.string()"

/-- The type tag driving a schema field: inferred when types are parsed,
otherwise string (spec 4.7). -/
def schemaTag (v : EnvVariable) (opts : GeneratorOptions) : TypeTag :=
  if opts.parseTypes then inferType v.value else .string

/-- One schema field with its optional leading line comment. -/
def schemaField (prim : TypeTag → String) (requiredSuffix optionalSuffix : String)
    (v : EnvVariable) (opts : GeneratorOptions) : List String :=
  (match v.comment with
    | some c => ["  // " ++ c]
    | none => []) ++
  ["  " ++ v.key ++ ": " ++ prim (schemaTag v opts) ++
    (if isRequired opts v.key then requiredSuffix else optionalSuffix) ++ ","]

/-- Modelled from the spec: the zod flavour of `generateSchema` (spec 4.7),
with the fragments fixed by the unit tests. -/
def zodSchema (vs : List EnvVariable) (opts : GeneratorOptions) : String :=
  joinLines
    (["import \x7b z \x7d from \x27zod\x27;", "",
      "export const envSchema = z.object(\x7b"]
      ++ (vs.map (fun v => schemaField zodPrimitive "" ".optional()" v opts)).flatten
      ++ ["\x7d);", "",
          "export type Env = z.infer<typeof envSchema>;",
          "export const env = envSchema.parse(process.env);"])

/-- Modelled from the spec: the yup flavour of `generateSchema`. -/
def yupSchema (vs : List EnvVariable) (opts : GeneratorOptions) : String :=
  joinLines
    (["import * as yup from \x27yup\x27;", "",
      "export const envSchema = yup.object(\x7b"]
      ++ (vs.map (fun v => schemaField yupPrimitive ".required()" ".optional()" v opts)).flatten
      ++ ["\x7d);", "",
          "export type Env = yup.InferType<typeof envSchema>;",
          "export const env = envSchema.validateSync(process.env);"])

/-- Modelled from the spec: the joi flavour of `generateSchema`. -/
def joiSchema (vs : List EnvVariable) (opts : GeneratorOptions) : String :=
  joinLines
    (["import Joi from \x27joi\x27;", "",
      "export const envSchema = Joi.object(\x7b"]
      ++ (vs.map (fun v => schemaField joiPrimitive ".required()" ".optional()" v opts)).flatten
      ++ ["\x7d);", "",
          "export const env = envSchema.validate(process.env).value;"])

/-- Modelled from the spec: `ValidationGenerator.generateSchema` (spec 4.7):
the requested dialect is a runtime string; the dialect none yields the
explicit absent result, the three supported dialects yield schema text, and
any other string fails with a GenerationError. -/
def generateSchema (vs : List EnvVariable) (lib : String) (opts : GeneratorOptions) :
    Except Err (Option String) :=
  if lib = "none" then .ok none
  else if lib = "zod" then .ok (some (zodSchema vs opts))
  else if lib = "yup" then .ok (some (yupSchema vs opts))
  else if lib = "joi" then .ok (some (joiSchema vs opts))
  else .error (.generationError ("Unsupported validation library: " ++ lib))

/-! ## GeneratorService.generate

Embedded from the source (the generator-service module in src/src/services).
The two type-generator collaborators and the validation generator are taken
as parameters, since their implementations are not under src/; `generate`
itself — parse, merge, option defaulting with nullish coalescing, the
truthiness-gated runtime-helper write, the validation gate, and the catch
that re-wraps any thrown error as a GenerationError carrying the inner
message — is translated from the source.  File writes are returned as an
ordered list of (path, content) pairs; a thrown error aborts the run before
any write that the source would only perform later, and no claim depends on
writes the source performs before a later throw. -/

/-- The runtime-helper path: the source replaces a final `.d.ts` by `.js`
(a no-op when the suffix is absent, as with the JS regexp replace). -/
def helperPath (outputPath : String) : String :=
  if ".d.ts".data.isSuffixOf outputPath.data then
    String.mk (outputPath.data.take (outputPath.data.length - 5)) ++ ".js"
  else outputPath

/-- The validation-schema write of `generate`: gated on a configured dialect
other than none and a configured (truthy) output path; a null or empty
schema result writes nothing.  Errors thrown by the validation generator
propagate. -/
def validationWrites
    (sg : List EnvVariable → ValidationLibrary → GeneratorOptions → Except Err (Option String))
    (vlib : Option ValidationLibrary) (vout : Option String)
    (vs : List EnvVariable) (options : GeneratorOptions) :
    Except Err (List (String × String)) :=
  match vlib with
  | some lib =>
    if lib ≠ ValidationLibrary.vnone then
      match vout with
      | some outPath =>
        if outPath ≠ "" then do
          let schema ← sg vs lib options
          match schema with
          | some text => if text ≠ "" then pure [(outPath, text)] else pure []
          | none => pure []
        else pure []
      | none => pure []
    else pure []
  | none => pure []

/-- `GeneratorService.generate`, from the source: parse all env files, merge,
build options with nullish-coalescing defaults, write the type definition,
write the runtime helper only when `config.parseTypes` is truthy, write the
validation schema when configured, and wrap any thrown error as a
`GenerationError` carrying the inner error's message. -/
def generate (tg rg : List EnvVariable → GeneratorOptions → String)
    (sg : List EnvVariable → ValidationLibrary → GeneratorOptions → Except Err (Option String))
    (fs : Filesystem) (config : GeneratorConfig) : Except Err (List (String × String)) :=
  let res : Except Err (List (String × String)) := do
    let parsedFiles ← parseFiles fs config.envFiles
    let allVariables := mergeVariables (parsedFiles.map ParsedEnvFile.vars)
    let options : GeneratorOptions :=
      { parseTypes := config.parseTypes.getD true
        validationLib := config.validationLib.getD ValidationLibrary.vnone
        requiredVars := config.requiredVars.getD []
        strict := config.strict.getD false }
    let typeWrites := [(config.outputPath, tg allVariables options)]
    let helperWrites :=
      if config.parseTypes.getD false then
        [(helperPath config.outputPath, rg allVariables options)]
      else []
    let vw ← validationWrites sg config.validationLib config.validationOutput allVariables options
    pure (typeWrites ++ helperWrites ++ vw)
  match res with
  | .ok writes => .ok writes
  | .error e => .error (.generationError e.message)

/-! ## FileWatcher

Embedded from the source (src/src/index.ts).  The watcher runs on the
single-threaded event loop; its observable behaviour is modelled as a
discrete-event state machine processing a trace of events: a `watch` call, a
chokidar change notification for a watched path, the passage of time (during
which due timers fire, earliest deadline first), and a `stop` call.
JavaScript timer semantics are explicit: `setTimeout` schedules a deadline
`debounceMs` after the current time, `clearTimeout` cancels a pending
deadline, and the per-path timer map has JS `Map` semantics.  Callback
invocations are recorded in the `fired` log as (time, path) pairs. -/

/-- The `WatcherOptions` of the source; the callback itself is represented
by the fired log, `debounceMs` is optional with default 300. -/
structure WatcherOptions where
  files : List String
  debounceMs : Option Nat := none
deriving DecidableEq, Repr

/-- Watcher state: current time, the active chokidar handle with its watched
paths (`none` when not watching), the debounce delay captured by the active
watch call, the per-path pending-timer map, and the log of callback
invocations. -/
structure WatcherState where
  now : Nat
  watching : Option (List String)
  debounceMs : Nat
  debounceTimers : List (String × Nat)
  fired : List (Nat × String)
deriving DecidableEq, Repr

/-- External events driving the watcher. -/
inductive WEvent
  | watchCall (opts : WatcherOptions)
  | change (path : String)
  | elapse (d : Nat)
  | stopCall
deriving DecidableEq, Repr

/-- Whether an event is a watch call, used to describe traces that start no
new watch session. -/
def WEvent.isWatchCall : WEvent → Bool
  | .watchCall _ => true
  | _ => false

/-- JS `Map.set` on the timer map: replace in place, else append. -/
def timerSet : List (String × Nat) → String → Nat → List (String × Nat)
  | [], p, d => [(p, d)]
  | e :: es, p, d => if e.1 = p then (p, d) :: es else e :: timerSet es p d

/-- `FileWatcher.handleChange` from the source: cancel the pending timer for
the path, if any, and schedule a new one `debounceMs` from now. -/
def handleChange (s : WatcherState) (path : String) : WatcherState :=
  { s with debounceTimers := timerSet s.debounceTimers path (s.now + s.debounceMs) }

/-- Stable insertion by deadline. -/
def insertByDeadline (x : String × Nat) : List (String × Nat) → List (String × Nat)
  | [] => [x]
  | y :: ys => if y.2 ≤ x.2 then y :: insertByDeadline x ys else x :: y :: ys

/-- Stable sort by deadline, the order in which due timers fire. -/
def sortByDeadline : List (String × Nat) → List (String × Nat)
  | [] => []
  | x :: xs => insertByDeadline x (sortByDeadline xs)

/-- Time passing on the event loop: every timer whose deadline is reached
fires (earliest first), removing itself from the map and invoking the
callback; the timer's deadline is the invocation time. -/
def elapseStep (s : WatcherState) (d : Nat) : WatcherState :=
  let t := s.now + d
  let due := sortByDeadline (s.debounceTimers.filter (fun pt => decide (pt.2 ≤ t)))
  { s with
    now := t
    debounceTimers := s.debounceTimers.filter (fun pt => decide (t < pt.2))
    fired := s.fired ++ due.map (fun pt => (pt.2, pt.1)) }

/-- One step of the watcher machine; the second component is the error the
step throws, if any.  `watch` on a running watcher throws and changes
nothing; a change notification debounces via `handleChange`; `stop` clears
all pending timers and releases the watch handle, and is a no-op when not
watching. -/
def step (s : WatcherState) : WEvent → WatcherState × Option Err
  | .watchCall opts =>
    if s.watching.isSome then
      (s, some (.envTypeGeneratorError "Watcher is already running"))
    else
      ({ s with watching := some opts.files, debounceMs := opts.debounceMs.getD 300 }, none)
  | .change p =>
    match s.watching with
    | some files => if p ∈ files then (handleChange s p, none) else (s, none)
    | none => (s, none)
  | .elapse d => (elapseStep s d, none)
  | .stopCall =>
    match s.watching with
    | none => (s, none)
    | some _ => ({ s with debounceTimers := [], watching := none }, none)

/-- Run a trace of events. -/
def run (s : WatcherState) : List WEvent → WatcherState
  | [] => s
  | e :: es => run (step s e).1 es

/-- `FileWatcher.isWatching` from the source. -/
def isWatching (s : WatcherState) : Bool := s.watching.isSome

/-- The trace of a burst of changes to one path: a first change, then for
each listed gap a wait of that length followed by another change, then a
final settling wait. -/
def burstTrace (p : String) (gaps : List Nat) (settle : Nat) : List WEvent :=
  WEvent.change p ::
    (gaps.map (fun g => [WEvent.elapse g, WEvent.change p])).flatten
    ++ [WEvent.elapse settle]

/-! ## Concrete objects for closed runs -/

/-- A filesystem with no files. -/
def emptyFs : Filesystem := fun _ => none

/-- A filesystem with one env file. -/
def oneFileFs : Filesystem := fun p => if p = ".env" then some "KEY=value" else none

/-- A constant type-generator collaborator for concrete runs. -/
def constTypeGen : List EnvVariable → GeneratorOptions → String := fun _ _ => "TYPES"

/-- A constant runtime-helper collaborator for concrete runs. -/
def constHelperGen : List EnvVariable → GeneratorOptions → String := fun _ _ => "HELPER"

/-- A constant validation collaborator for concrete runs. -/
def constSchemaGen :
    List EnvVariable → ValidationLibrary → GeneratorOptions → Except Err (Option String) :=
  fun _ _ _ => .ok none

/-- A configuration naming a file no filesystem entry resolves. -/
def missingCfg : GeneratorConfig := { envFiles := ["missing.env"], outputPath := "env.d.ts" }

/-- A configuration with `parseTypes` omitted. -/
def omittedCfg : GeneratorConfig := { envFiles := [".env"], outputPath := "env.d.ts" }

/-- Whether a generate result is a FileNotFound failure. -/
def resultIsFileNotFound : Except Err (List (String × String)) → Bool
  | .error (.fileNotFoundError _) => true
  | _ => false

/-! ## Lemmas about the merge step -/

theorem mapSet_map_key (ws : List EnvVariable) (v : EnvVariable) :
    (mapSet ws v).map EnvVariable.key =
      if v.key ∈ ws.map EnvVariable.key then ws.map EnvVariable.key
      else ws.map EnvVariable.key ++ [v.key] := by
  induction ws with
  | nil => simp [mapSet]
  | cons w ws ih =>
    by_cases h : w.key = v.key
    · simp [mapSet, h]
    · have h' : v.key ≠ w.key := fun hh => h hh.symm
      simp only [mapSet, if_neg h, List.map_cons, ih, List.mem_cons]
      by_cases hm : v.key ∈ ws.map EnvVariable.key
      · simp [hm, h']
      · simp [hm, h']

theorem foldl_mapSet_map_key (vs : List EnvVariable) (acc : List EnvVariable) :
    (vs.foldl mapSet acc).map EnvVariable.key =
      (vs.map EnvVariable.key).foldl
        (fun ks k => if k ∈ ks then ks else ks ++ [k]) (acc.map EnvVariable.key) := by
  induction vs generalizing acc with
  | nil => rfl
  | cons v vs ih => simp [List.foldl_cons, ih, mapSet_map_key]

theorem mapSet_find? (ws : List EnvVariable) (v : EnvVariable) (k : String) :
    (mapSet ws v).find? (fun w => w.key == k) =
      if v.key = k then some v else ws.find? (fun w => w.key == k) := by
  induction ws with
  | nil =>
    by_cases h : v.key = k
    · simp [mapSet, List.find?, beq_iff_eq.mpr h, h]
    · simp [mapSet, List.find?, beq_eq_false_iff_ne.mpr h, h]
  | cons w ws ih =>
    by_cases hwv : w.key = v.key
    · by_cases hvk : v.key = k
      · simp [mapSet, hwv, List.find?, beq_iff_eq.mpr hvk, hvk]
      · have hwk : w.key ≠ k := fun hh => hvk (hwv ▸ hh)
        simp [mapSet, hwv, List.find?, beq_eq_false_iff_ne.mpr hvk, hvk,
          beq_eq_false_iff_ne.mpr hwk]
    · simp only [mapSet, if_neg hwv, List.find?_cons]
      by_cases hwk : w.key = k
      · have hvk : v.key ≠ k := fun hh => hwv (by rw [hwk, hh])
        simp [beq_iff_eq.mpr hwk, hvk]
      · simp [beq_eq_false_iff_ne.mpr hwk, ih]

theorem foldl_mapSet_find? (vs : List EnvVariable) (acc : List EnvVariable) (k : String) :
    (vs.foldl mapSet acc).find? (fun w => w.key == k) =
      (vs.reverse.find? (fun w => w.key == k)).or (acc.find? (fun w => w.key == k)) := by
  induction vs generalizing acc with
  | nil => simp
  | cons v vs ih =>
    simp only [List.foldl_cons, ih, List.reverse_cons, List.find?_append]
    by_cases h : v.key = k
    · cases hX : vs.reverse.find? (fun w => w.key == k) <;>
        simp [mapSet_find?, h, hX, List.find?, Option.or, beq_iff_eq.mpr h]
    · cases hX : vs.reverse.find? (fun w => w.key == k) <;>
        simp [mapSet_find?, h, hX, List.find?, Option.or, beq_eq_false_iff_ne.mpr h]

theorem firstAppearance_foldl_nodup (l : List String) (ks : List String) (h : ks.Nodup) :
    (l.foldl (fun ks k => if k ∈ ks then ks else ks ++ [k]) ks).Nodup := by
  induction l generalizing ks with
  | nil => exact h
  | cons a l ih =>
    simp only [List.foldl_cons]
    by_cases ha : a ∈ ks
    · simpa [ha] using ih ks h
    · have : (ks ++ [a]).Nodup := by
        simp [List.nodup_append, h, List.Disjoint]
        intro x hx hxa
        exact ha (hxa ▸ hx)
      simpa [ha] using ih _ this

theorem mergeVariables_eq_foldl_flatten (arrays : List (List EnvVariable)) :
    mergeVariables arrays = arrays.flatten.foldl mapSet [] := by
  simp [mergeVariables, List.foldl_flatten]

/-- C1: merging an ordered list of per-file variable lists yields exactly one
record per distinct key (the merged key list has no duplicates), and for each
key the surviving record is the last record with that key across the
concatenated input lists, in input order — value and comment are both taken
from that last occurrence. -/
theorem mergeVariables_last_writer_wins (arrays : List (List EnvVariable)) (k : String) :
    ((mergeVariables arrays).map EnvVariable.key).Nodup ∧
    (mergeVariables arrays).find? (fun v => v.key == k) =
      arrays.flatten.reverse.find? (fun v => v.key == k) := by
  constructor
  · rw [mergeVariables_eq_foldl_flatten, foldl_mapSet_map_key]
    exact firstAppearance_foldl_nodup _ [] (by simp)
  · rw [mergeVariables_eq_foldl_flatten, foldl_mapSet_find?]
    simp

/-- C2: the keys of the merged output appear in the order in which each key
first appeared across the input lists; a later override replaces the record
in place without moving the key. -/
theorem mergeVariables_first_appearance_order (arrays : List (List EnvVariable)) :
    (mergeVariables arrays).map EnvVariable.key =
      firstAppearanceOrder (arrays.flatten.map EnvVariable.key) := by
  rw [mergeVariables_eq_foldl_flatten, foldl_mapSet_map_key]
  rfl

/-! ## Watcher, generator and parser claim theorems -/

/-- C6: calling watch while a watcher is already running fails immediately
with the usage error `EnvTypeGeneratorError`, without queuing the request or
replacing the existing watcher: the state is returned unchanged together
with the thrown error. -/
theorem watch_reentrant_error (s : WatcherState) (opts : WatcherOptions)
    (h : isWatching s = true) :
    step s (.watchCall opts) =
      (s, some (.envTypeGeneratorError "Watcher is already running")) := by
  simp only [isWatching] at h
  simp [step, h]

/-- Closed instance of the re-entrant watch error at a concrete running
watcher. -/
theorem watch_reentrant_error_witness :
    step { now := 0, watching := some [".env"], debounceMs := 300,
           debounceTimers := [], fired := [] }
        (.watchCall { files := [".env"] }) =
      ({ now := 0, watching := some [".env"], debounceMs := 300,
         debounceTimers := [], fired := [] },
       some (.envTypeGeneratorError "Watcher is already running")) :=
  watch_reentrant_error _ _ (by decide)

/-- C7: generateSchema yields the explicit absent result for the dialect
none, and fails with a GenerationError for every dialect string outside the
four recognised values. -/
theorem generateSchema_none_and_unknown (vs : List EnvVariable) (opts : GeneratorOptions)
    (lib : String) (h : lib ∉ (["zod", "yup", "joi", "none"] : List String)) :
    generateSchema vs "none" opts = .ok none ∧
    ∃ msg, generateSchema vs lib opts = .error (.generationError msg) := by
  simp only [List.mem_cons, List.not_mem_nil, or_false, not_or] at h
  obtain ⟨h1, h2, h3, h4⟩ := h
  exact ⟨rfl, "Unsupported validation library: " ++ lib,
    by simp [generateSchema, h1, h2, h3, h4]⟩

/-- Closed instance: the dialect none yields the absent result and the
dialect bogus fails with a GenerationError. -/
theorem generateSchema_none_and_unknown_witness :
    generateSchema [] "none"
        { parseTypes := true, validationLib := .zod, requiredVars := [], strict := false } =
      .ok none ∧
    ∃ msg, generateSchema [] "bogus"
        { parseTypes := true, validationLib := .zod, requiredVars := [], strict := false } =
      .error (.generationError msg) :=
  generateSchema_none_and_unknown [] _ "bogus" (by decide)

theorem tsTypeOf_strict_irrelevant (v : EnvVariable) (opts : GeneratorOptions) (b : Bool) :
    tsTypeOf v { opts with strict := b } = tsTypeOf v opts := by
  simp [tsTypeOf]

/-- C8: with strict set, generateTypes gives every declared variable the
bare required annotation — its output is exactly the all-required reference
form, with no optional-marker token emitted for any variable, whatever the
required list says. -/
theorem generateTypes_strict_no_optional (vs : List EnvVariable) (opts : GeneratorOptions) :
    generateTypes vs { opts with strict := true } = generateTypesAllRequired vs opts := by
  simp [generateTypes, generateTypesAllRequired, envDeclLine, envConstLine, isRequired,
    tsTypeOf_strict_irrelevant]

/-- C9: inferType classifies by checking boolean, then number, then
structured data, falling back to string, with the first match winning; the
claim's concrete classifications hold. -/
theorem inferType_classification :
    (∀ s, isBooleanString s = true → inferType s = .boolean) ∧
    (∀ s, isBooleanString s = false → isNumberString s = true → inferType s = .number) ∧
    (∀ s, isBooleanString s = false → isNumberString s = false →
      isJsonStructure s = true → inferType s = .object) ∧
    (∀ s, isBooleanString s = false → isNumberString s = false →
      isJsonStructure s = false → inferType s = .string) ∧
    inferType "true" = .boolean ∧ inferType "FALSE" = .boolean ∧
    inferType "42" = .number ∧ inferType "3.14" = .number ∧
    inferType "-100" = .number ∧
    inferType "\x7b\"k\":\"v\"\x7d" = .object ∧ inferType "[1,2,3]" = .object ∧
    inferType "\x7binvalid\x7d" = .string ∧ inferType "hello" = .string := by
  refine ⟨fun s h => by simp [inferType, h],
    fun s h1 h2 => by simp [inferType, h1, h2],
    fun s h1 h2 h3 => by simp [inferType, h1, h2, h3],
    fun s h1 h2 h3 => by simp [inferType, h1, h2, h3],
    by decide, by decide, by decide, by decide, by decide,
    by decide, by decide, by decide, by decide⟩

/-- Closed instance: a mixed-case boolean literal is classified boolean by
the first check. -/
theorem inferType_classification_witness : inferType "TrUe" = TypeTag.boolean :=
  inferType_classification.1 "TrUe" (by decide)

theorem exceptBindOk {ε α β : Type} (a : α) (f : α → Except ε β) :
    (Except.ok a >>= f) = f a := rfl

/-- C3 counterexample: at a concrete missing file, the failure reaches
generate's caller wrapped as a GenerationError carrying the FileNotFound
message — it is not delivered as a FileNotFound error, contrary to the claim
as stated. -/
theorem generate_missing_file_not_fileNotFound :
    generate constTypeGen constHelperGen constSchemaGen emptyFs missingCfg =
      .error (.generationError "Environment file not found: missing.env") ∧
    resultIsFileNotFound
      (generate constTypeGen constHelperGen constSchemaGen emptyFs missingCfg) = false :=
  ⟨rfl, rfl⟩

/-- C3 amended: a path that does not resolve to a file makes that file's
parse fail with FileNotFound; the first missing file fails the whole
multi-file parse with that FileNotFound (no silent skip, no partial result);
and generate surfaces any parse failure to its caller as a GenerationError
wrapping the inner message, so a missing file aborts generation before any
write. -/
theorem missing_file_propagation :
    (∀ fs p, fs p = none → parseFile fs p = .error (.fileNotFoundError p)) ∧
    (∀ fs paths, (∃ p, p ∈ paths ∧ fs p = none) →
      ∃ q, q ∈ paths ∧ fs q = none ∧
        parseFiles fs paths = .error (.fileNotFoundError q)) ∧
    (∀ tg rg sg fs config e, parseFiles fs config.envFiles = .error e →
      generate tg rg sg fs config = .error (.generationError e.message)) := by
  refine ⟨fun fs p h => by simp [parseFile, h], fun fs paths => ?_, ?_⟩
  · induction paths with
    | nil => rintro ⟨p, hp, _⟩; cases hp
    | cons a paths ih =>
      rintro ⟨p, hp, hmiss⟩
      cases hfa : fs a with
      | none =>
        exact ⟨a, by simp, hfa, by simp only [parseFiles, parseFile, hfa]; rfl⟩
      | some content =>
        have hpa : p ≠ a := fun hh => by rw [hh, hfa] at hmiss; cases hmiss
        have hptail : p ∈ paths := by
          cases hp with
          | head => exact absurd rfl hpa
          | tail _ h => exact h
        obtain ⟨q, hq, hqm, hqe⟩ := ih ⟨p, hptail, hmiss⟩
        refine ⟨q, by simp [hq], hqm, ?_⟩
        simp only [parseFiles, parseFile, hfa, hqe]
        rfl
  · intro tg rg sg fs config e h
    simp only [generate, h]
    rfl

/-- Closed instance of the amended propagation: generating from a missing
file yields the wrapped GenerationError. -/
theorem missing_file_propagation_witness :
    generate constTypeGen constHelperGen constSchemaGen emptyFs missingCfg =
      .error (.generationError "Environment file not found: missing.env") :=
  missing_file_propagation.2.2 constTypeGen constHelperGen constSchemaGen emptyFs missingCfg
    (.fileNotFoundError "missing.env") rfl

/-- C10: with parseTypes omitted, generate builds generator options with
parseTypes defaulted to true — the declaration text is produced under those
options — while the runtime-helper write is skipped; with parseTypes
explicitly true the same options are built and the helper write appears. -/
theorem generate_omitted_parseTypes
    (tg rg : List EnvVariable → GeneratorOptions → String)
    (sg : List EnvVariable → ValidationLibrary → GeneratorOptions → Except Err (Option String))
    (fs : Filesystem) (config : GeneratorConfig)
    (pfs : List ParsedEnvFile) (vw : List (String × String))
    (vars : List EnvVariable) (opts : GeneratorOptions)
    (hpt : config.parseTypes = none)
    (hparse : parseFiles fs config.envFiles = .ok pfs)
    (hvars : vars = mergeVariables (pfs.map ParsedEnvFile.vars))
    (hopts : opts = { parseTypes := true
                      validationLib := config.validationLib.getD .vnone
                      requiredVars := config.requiredVars.getD []
                      strict := config.strict.getD false })
    (hval : validationWrites sg config.validationLib config.validationOutput vars opts = .ok vw) :
    generate tg rg sg fs config = .ok ([(config.outputPath, tg vars opts)] ++ vw) ∧
    generate tg rg sg fs { config with parseTypes := some true } =
      .ok ([(config.outputPath, tg vars opts),
            (helperPath config.outputPath, rg vars opts)] ++ vw) := by
  subst hvars hopts
  constructor
  · simp only [generate, hparse, hpt, Option.getD_none, exceptBindOk, hval]
    rfl
  · simp only [generate, hparse, hpt, Option.getD_none, Option.getD_some, exceptBindOk, hval]
    rfl

/-- Closed instance of the parseTypes defaulting contrast: an omitted
parseTypes writes only the declaration file, an explicit true additionally
writes the runtime helper. -/
theorem generate_omitted_parseTypes_witness :
    generate constTypeGen constHelperGen constSchemaGen oneFileFs omittedCfg =
      .ok [("env.d.ts", "TYPES")] ∧
    generate constTypeGen constHelperGen constSchemaGen oneFileFs
        { omittedCfg with parseTypes := some true } =
      .ok [("env.d.ts", "TYPES"), ("env.js", "HELPER")] := by
  have h := generate_omitted_parseTypes constTypeGen constHelperGen constSchemaGen oneFileFs
    omittedCfg [{ filePath := ".env", vars := [{ key := "KEY", value := "value" }] }] []
    [{ key := "KEY", value := "value" }]
    { parseTypes := true, validationLib := .vnone, requiredVars := [], strict := false }
    rfl rfl rfl rfl rfl
  simpa using h

theorem run_quiescent (tr : List WEvent) (s : WatcherState)
    (hw : s.watching = none) (ht : s.debounceTimers = [])
    (htr : ∀ e ∈ tr, e.isWatchCall = false) :
    (run s tr).fired = s.fired ∧ (run s tr).watching = none ∧
      (run s tr).debounceTimers = [] := by
  induction tr generalizing s with
  | nil => exact ⟨rfl, hw, ht⟩
  | cons e tr ih =>
    cases e with
    | watchCall opts =>
      have := htr _ (List.mem_cons_self _ _)
      simp [WEvent.isWatchCall] at this
    | change p =>
      have hstep : (step s (.change p)).1 = s := by simp [step, hw]
      simp only [run, hstep]
      exact ih s hw ht (fun e he => htr e (List.mem_cons_of_mem _ he))
    | elapse d =>
      have hstep : (step s (.elapse d)).1 = { s with now := s.now + d } := by
        simp [step, elapseStep, ht, sortByDeadline]
      simp only [run, hstep]
      exact ih _ hw ht (fun e he => htr e (List.mem_cons_of_mem _ he))
    | stopCall =>
      have hstep : (step s .stopCall).1 = s := by simp [step, hw]
      simp only [run, hstep]
      exact ih s hw ht (fun e he => htr e (List.mem_cons_of_mem _ he))

/-- C4: after stop returns, the watcher reports not watching, every pending
per-file debounce timer has been cancelled, and no debounced regeneration
callback ever fires afterwards: any further trace that starts no new watch
session leaves the fired log exactly as it was when stop was called. -/
theorem stop_cancels_and_quiesces (s : WatcherState) (tr : List WEvent)
    (hinv : s.watching = none → s.debounceTimers = [])
    (htr : ∀ e ∈ tr, e.isWatchCall = false) :
    isWatching (step s .stopCall).1 = false ∧
    (step s .stopCall).1.debounceTimers = [] ∧
    (run (step s .stopCall).1 tr).fired = s.fired := by
  cases hw : s.watching with
  | none =>
    have ht := hinv hw
    have hstep : (step s .stopCall).1 = s := by simp [step, hw]
    rw [hstep]
    exact ⟨by simp [isWatching, hw], ht, (run_quiescent tr s hw ht htr).1⟩
  | some files =>
    have hstep : (step s .stopCall).1 =
        { s with debounceTimers := [], watching := none } := by
      simp [step, hw]
    rw [hstep]
    exact ⟨by simp [isWatching], rfl, (run_quiescent tr _ rfl rfl htr).1⟩

/-- Closed instance: stopping a watcher with a pending debounce timer clears
it, reports not watching, and a later change and long wait fire nothing. -/
theorem stop_cancels_and_quiesces_witness :
    isWatching (step { now := 100, watching := some [".env"], debounceMs := 300,
                       debounceTimers := [(".env", 400)], fired := [] } .stopCall).1 = false ∧
    (step { now := 100, watching := some [".env"], debounceMs := 300,
            debounceTimers := [(".env", 400)], fired := [] } .stopCall).1.debounceTimers = [] ∧
    (run (step { now := 100, watching := some [".env"], debounceMs := 300,
                 debounceTimers := [(".env", 400)], fired := [] } .stopCall).1
        [.change ".env", .elapse 1000, .stopCall]).fired = [] :=
  stop_cancels_and_quiesces _ _ (fun h => absurd h (by decide)) (by decide)

theorem burst_aux (p : String) (files : List String) (D : Nat) (settle : Nat)
    (hp : p ∈ files) (hs : D ≤ settle) :
    ∀ (gaps : List Nat), (∀ g ∈ gaps, g < D) → ∀ (t : Nat) (fired0 : List (Nat × String)),
    (run { now := t, watching := some files, debounceMs := D,
           debounceTimers := [(p, t + D)], fired := fired0 }
        ((gaps.map (fun g => [WEvent.elapse g, WEvent.change p])).flatten
          ++ [WEvent.elapse settle])).fired = fired0 ++ [(t + gaps.sum + D, p)] := by
  intro gaps
  induction gaps with
  | nil =>
    intro _ t fired0
    have h1 : (decide ((t + D : Nat) ≤ t + settle)) = true := by
      simp only [decide_eq_true_eq]; omega
    have h2 : (decide ((t + settle : Nat) < t + D)) = false := by
      simp only [decide_eq_false_iff_not]; omega
    have h3 : ¬ (settle < D) := by omega
    simp [run, step, elapseStep, List.filter_cons, hs, h3, sortByDeadline, insertByDeadline]
  | cons g gaps ih =>
    intro hD t fired0
    have hg : g < D := hD g (List.mem_cons_self g gaps)
    have hDg : ¬ (D ≤ g) := by omega
    simp only [List.map_cons, List.flatten_cons, List.cons_append, List.append_assoc,
      List.nil_append, List.append_eq, run]
    have e1 : (step { now := t, watching := some files, debounceMs := D,
                      debounceTimers := [(p, t + D)], fired := fired0 }
          (WEvent.elapse g)).1 =
        { now := t + g, watching := some files, debounceMs := D,
          debounceTimers := [(p, t + D)], fired := fired0 } := by
      simp [step, elapseStep, List.filter_cons, hg, hDg, sortByDeadline]
    rw [e1]
    have e2 : (step { now := t + g, watching := some files, debounceMs := D,
                      debounceTimers := [(p, t + D)], fired := fired0 }
          (WEvent.change p)).1 =
        { now := t + g, watching := some files, debounceMs := D,
          debounceTimers := [(p, t + g + D)], fired := fired0 } := by
      simp [step, hp, handleChange, timerSet]
    rw [e2]
    have hD' : ∀ x ∈ gaps, x < D := fun x hx => hD x (List.mem_cons_of_mem _ hx)
    rw [ih hD' (t + g) fired0]
    simp only [List.sum_cons, ← Nat.add_assoc]

/-- C5: a burst of changes to one watched path, each arriving within the
debounce window of the previous change, invokes the regeneration callback
exactly once, at the last change's time plus the debounce delay — after the
quiet period; a newer change for the path replaces its pending timer with a
freshly scheduled one; and a watch call without a configured delay uses the
300ms default. -/
theorem debounce_burst_once (p : String) (files : List String) (D : Nat)
    (fired0 : List (Nat × String)) (gaps : List Nat) (settle t : Nat) (s0 : WatcherState)
    (hp : p ∈ files) (hD : ∀ g ∈ gaps, g < D) (hs : D ≤ settle) :
    (run { now := t, watching := some files, debounceMs := D,
           debounceTimers := [], fired := fired0 } (burstTrace p gaps settle)).fired =
      fired0 ++ [(t + gaps.sum + D, p)] ∧
    (∀ dl, (step { now := t, watching := some files, debounceMs := D,
                   debounceTimers := [(p, dl)], fired := fired0 }
        (.change p)).1.debounceTimers = [(p, t + D)]) ∧
    (s0.watching = none →
      (step s0 (.watchCall { files := files })).1.debounceMs = 300) := by
  refine ⟨?_, ?_, ?_⟩
  · simp only [burstTrace, run, List.append_eq]
    have e0 : (step { now := t, watching := some files, debounceMs := D,
                      debounceTimers := [], fired := fired0 }
          (WEvent.change p)).1 =
        { now := t, watching := some files, debounceMs := D,
          debounceTimers := [(p, t + D)], fired := fired0 } := by
      simp [step, hp, handleChange, timerSet]
    rw [e0, burst_aux p files D settle hp hs gaps hD t fired0]
  · intro dl
    simp [step, hp, handleChange, timerSet]
  · intro h
    simp [step, h]

/-- Closed instance: three changes 100 and 50 apart under a 300ms debounce
fire exactly one callback, 300 after the last change. -/
theorem debounce_burst_once_witness :
    (run { now := 0, watching := some [".env"], debounceMs := 300,
           debounceTimers := [], fired := [] } (burstTrace ".env" [100, 50] 300)).fired =
      [(450, ".env")] := by
  have h := debounce_burst_once ".env" [".env"] 300 [] [100, 50] 300 0
    { now := 0, watching := none, debounceMs := 300, debounceTimers := [], fired := [] }
    (by decide) (by decide) (by decide)
  simpa using h.1

end EnvTypeGen
